import Mathlib

/-!
Verification of the eLandings landing-report sync engine
(`src/client/sync_landing_reports.py`): the XML→document normalizer
`xml_to_dict`, and the incremental `LandingReportSync.sync` run
(watermark resolution, search, reconciliation against existing local
reports, per-record fetch loop, and state finalization).

The embedding is shallow: Python dicts (which preserve insertion order)
become association lists with dict-assignment semantics, XML elements
become a tree structure, the network client and the clock become inputs
of the sync function, and exceptions become explicit `Except`/`Option`
results.
-/

/-- The document model produced by `xml_to_dict`: a JSON-like value that is
either a bare string, a mapping (Python dict, insertion-ordered), or a list.
`xml_to_dict` itself only ever returns `str` or `obj`; `arr` values appear
only inside mappings, from coalescing repeated child tags. -/
inductive Node where
  | str (s : String)
  | obj (entries : List (String × Node))
  | arr (items : List Node)

/-- Python dict lookup `d.get(key)` on an insertion-ordered association list
with unique keys: first match wins. -/
def dictFind : List (String × Node) → String → Option Node
  | [], _ => none
  | (k, v) :: rest, key => if k = key then some v else dictFind rest key

/-- Python dict assignment `d[key] = val`: replace in place if the key is
present (keeping its position), otherwise append at the end. -/
def dictSet : List (String × Node) → String → Node → List (String × Node)
  | [], key, val => [(key, val)]
  | (k, v) :: rest, key, val =>
    if k = key then (key, val) :: rest else (k, v) :: dictSet rest key val

/-- Python `d.update(other)`: assign every entry of `other` into `d`, in
`other`'s iteration order. -/
def dictUpdate (d other : List (String × Node)) : List (String × Node) :=
  other.foldl (fun acc kv => dictSet acc kv.1 kv.2) d

/-- Whitespace test used by Python `str.strip()` (the ASCII whitespace
characters; Python additionally strips some Unicode spaces, which no input
in this development contains). -/
def isPySpace (c : Char) : Bool :=
  c = ' ' || c = '\t' || c = '\n' || c = '\r' || c = '\x0b' || c = '\x0c'

/-- Python `str.strip()`: drop leading and trailing whitespace. -/
def pyStrip (s : String) : String :=
  ⟨((s.data.dropWhile isPySpace).reverse.dropWhile isPySpace).reverse⟩

/-- A parsed XML element (`xml.etree.ElementTree.Element`): tag, attributes
in document order, child elements in document order, and the element's own
text (`Element.text`, `None` when absent). -/
structure XmlElement where
  tag : String
  attrib : List (String × String)
  children : List XmlElement
  text : Option String

/-- The attribute pass of `xml_to_dict`: `result[f"@{key}"] = value` for each
attribute, starting from an empty dict. -/
def attribResult (attrib : List (String × String)) : List (String × Node) :=
  attrib.foldl (fun acc kv => dictSet acc ("@" ++ kv.1) (Node.str kv.2)) []

/-- One step of the child-coalescing loop of `xml_to_dict`: if the tag is
already present and holds a list, append; if present and not a list, wrap
the previous value and the new one into a two-element list; otherwise insert
the value as is. -/
def addChild (cd : List (String × Node)) (p : String × Node) : List (String × Node) :=
  match dictFind cd p.1 with
  | some (Node.arr xs) => dictSet cd p.1 (Node.arr (xs ++ [p.2]))
  | some old => dictSet cd p.1 (Node.arr [old, p.2])
  | none => dictSet cd p.1 p.2

/-- The child-processing loop of `xml_to_dict`, building `child_dict` from
the `(tag, normalized child)` pairs in document order. -/
def coalesceChildren (pairs : List (String × Node)) : List (String × Node) :=
  pairs.foldl addChild []

mutual

/-- `xml_to_dict(element)` from `sync_landing_reports.py`: attributes with an
`@` prefix; children recursively, with repeated tags coalesced into lists;
an element with neither attributes nor children collapses to its stripped
text (note the source's `elif`: when children exist, the element's own text
is not examined at all); an element with attributes, no children, and
non-empty stripped text stores the text under `"#text"`. -/
def xml_to_dict : XmlElement → Node
  | ⟨_, attrib, [], text⟩ =>
    match text with
    | some t =>
      if pyStrip t = "" then Node.obj (attribResult attrib)
      else if (attribResult attrib).isEmpty then Node.str (pyStrip t)
      else Node.obj (dictSet (attribResult attrib) "#text" (Node.str (pyStrip t)))
    | none => Node.obj (attribResult attrib)
  | ⟨_, attrib, c :: cs, _⟩ =>
    Node.obj (dictUpdate (attribResult attrib) (coalesceChildren (childPairs (c :: cs))))

/-- The `(child.tag, xml_to_dict(child))` pairs for a child list, in order. -/
def childPairs : List XmlElement → List (String × Node)
  | [] => []
  | c :: cs => (c.tag, xml_to_dict c) :: childPairs cs

end

/-- Lookup in a normalized node: `summary.get(key)` when the node is a
mapping; a bare string or list has no keys. -/
def nodeGet : Node → String → Option Node
  | Node.obj es, k => dictFind es k
  | _, _ => none

mutual

/-- Python `repr` on a normalized node (quotes without escaping, which is
exact for the ids appearing in this development). Only reachable for
degenerate report ids (a summary with repeated id children). -/
def pyRepr : Node → String
  | Node.str s => "'" ++ s ++ "'"
  | Node.obj es => "\x7b" ++ pyReprEntries es ++ "\x7d"
  | Node.arr xs => "[" ++ pyReprItems xs ++ "]"

/-- `repr` of dict entries, comma separated. -/
def pyReprEntries : List (String × Node) → String
  | [] => ""
  | [(k, v)] => "'" ++ k ++ "': " ++ pyRepr v
  | (k, v) :: rest => "'" ++ k ++ "': " ++ pyRepr v ++ ", " ++ pyReprEntries rest

/-- `repr` of list items, comma separated. -/
def pyReprItems : List Node → String
  | [] => ""
  | [x] => pyRepr x
  | x :: rest => pyRepr x ++ ", " ++ pyReprItems rest

end

/-- Python `str()` as used on report ids (`str(report_id)` and the f-string
in `_save_report`): a string maps to itself, any other value to its repr. -/
def pyStr : Node → String
  | Node.str s => s
  | n => pyRepr n

/-- Outcome of one `client.get_landing_report(id)` call, as the sync loop
observes it: a falsy response (`None` or `""`), a successful response whose
XML parses to the given root element, or a raised exception (covering
network errors and malformed XML; the exception message is the string the
`except` block formats). -/
inductive FetchResponse where
  | empty
  | ok (root : XmlElement)
  | raises (msg : String)

/-- `_save_report(report)`: derive the id from the report's
`landing_report_id` field (unwrapping `{"#text": ...}` when it is a dict,
with default `"unknown"`), and write to `landing_report_{id}.json`,
returning the path. On a report that is not a mapping (a bare string from a
text-only root), `report.get` raises `AttributeError`; file I/O is modeled
as succeeding (an I/O failure travels the same `except` path as
`FetchResponse.raises`). -/
def save_report (output_dir : String) (report : Node) : Except String String :=
  match report with
  | Node.obj es =>
    let rid : Node :=
      match dictFind es "landing_report_id" with
      | some (Node.obj sub) =>
        match dictFind sub "#text" with
        | some v => v
        | none => Node.str "unknown"
      | some v => v
      | none => Node.str "unknown"
    Except.ok (output_dir ++ "/landing_report_" ++ pyStr rid ++ ".json")
  | _ => Except.error "AttributeError"

/-- Report-id extraction at the top of each loop iteration
(`summary.get("landing_report_id", \x7b\x7d)` then, when that value is a
dict, `.get("#text", "")`). On a summary that is not a mapping, `.get`
raises `AttributeError`, which is not inside the `try` and aborts the whole
run: modeled as `Except.error`. -/
def extractReportId : Node → Except Unit Node
  | Node.obj es =>
    Except.ok
      (match dictFind es "landing_report_id" with
      | some (Node.obj sub) =>
        match dictFind sub "#text" with
        | some v => v
        | none => Node.str ""
      | some v => v
      | none => Node.str "")
  | _ => Except.error ()

/-- The inputs the fetch loop reads on every iteration: the skip flag, the
existing-ids set computed before the loop, the fetch client, and the output
directory used by `_save_report`. -/
structure LoopParams where
  skip_existing : Bool
  existing_ids : List String
  fetch : String → FetchResponse
  output_dir : String

/-- The loop accumulators `synced`, `skipped`, `errors`, plus the trace of
ids actually passed to `client.get_landing_report`, in call order. -/
structure LoopAcc where
  synced : List (Node × String)
  skipped : List Node
  errors : List (Node × String)
  fetched : List String

/-- The per-record skip test `skip_existing and str(report_id) in
existing_ids` (line 178). -/
def isSkipped (p : LoopParams) (r : Node) : Bool :=
  p.skip_existing && p.existing_ids.contains (pyStr r)

/-- The body of one loop iteration after id extraction: skip when the id is
among the existing ids (and skipping is on); otherwise fetch, and record
the outcome in exactly one of `synced` / `errors`. -/
def processId (p : LoopParams) (acc : LoopAcc) (r : Node) : LoopAcc :=
  if isSkipped p r then
    { acc with skipped := acc.skipped ++ [r] }
  else
    match p.fetch (pyStr r) with
    | FetchResponse.raises msg =>
      { acc with fetched := acc.fetched ++ [pyStr r], errors := acc.errors ++ [(r, msg)] }
    | FetchResponse.empty =>
      { acc with fetched := acc.fetched ++ [pyStr r],
                 errors := acc.errors ++ [(r, "Empty response")] }
    | FetchResponse.ok root =>
      match save_report p.output_dir (xml_to_dict root) with
      | Except.ok path =>
        { acc with fetched := acc.fetched ++ [pyStr r], synced := acc.synced ++ [(r, path)] }
      | Except.error msg =>
        { acc with fetched := acc.fetched ++ [pyStr r], errors := acc.errors ++ [(r, msg)] }

/-- The `for i, summary in enumerate(summaries)` loop: extract each id in
turn (aborting the run on `AttributeError`) and process it. The progress
callback is a pure side channel (prints and an optional observer) and does
not affect any accumulator, so it is not modeled. -/
def runLoop (p : LoopParams) : LoopAcc → List Node → Except Unit LoopAcc
  | acc, [] => Except.ok acc
  | acc, s :: rest =>
    match extractReportId s with
    | Except.error _ => Except.error ()
    | Except.ok r => runLoop p (processId p acc r) rest

/-- The ids of a summary list when every extraction succeeds; `none` when
some summary is not a mapping. -/
def mapIds : List Node → Option (List Node)
  | [] => some []
  | s :: rest =>
    match extractReportId s with
    | Except.error _ => none
    | Except.ok r => (mapIds rest).map (r :: ·)

/-- Python truthiness of an optional string (`None` and `""` are falsy). -/
def strTruthy : Option String → Bool
  | none => false
  | some s => s ≠ ""

/-- The watermark resolution at the top of `sync` (lines 136-145): full
refresh forces the unbounded boundary `""`; else a truthy caller-supplied
`since` is extended to midnight; else a truthy persisted `last_sync` is
used; else the run defaults to `now30`, the pre-formatted
`(now - 30 days)` timestamp. -/
def resolveBoundary (full_refresh : Bool) (since : Option String)
    (last_sync : Option String) (now30 : String) : String :=
  if full_refresh then ""
  else if strTruthy since then since.getD "" ++ "T00:00:00"
  else if strTruthy last_sync then last_sync.getD ""
  else now30

/-- The persisted sync state (`.sync_state.json`): the `last_sync` watermark
(`null` before the first completed run) and the `synced_reports` id list
(serialized from a Python set; ids written by this program are strings). -/
structure SyncState where
  last_sync : Option String
  synced_reports : List String

/-- The caller-controlled arguments of `sync` (the progress callback is a
pure side channel and the operation filter only parametrizes the search
call, whose response is already an input of the model). -/
structure SyncInputs where
  since : Option String
  full_refresh : Bool
  skip_existing : Bool

/-- Everything `sync` observes from the outside world: the loaded state, the
ids scanned from `landing_report_*.json` filenames by
`_get_existing_report_ids`, the search response (`none` for a falsy
response, otherwise the `landing_report_summary` elements `findall`
enumerates), the fetch client, the output directory, and the timestamps
derived from the single `datetime.now()` capture at line 147
(`sync_start` via `strftime`, `sync_start_iso` via `isoformat`) plus the
`now - 30 days` default boundary. -/
structure SyncEnv where
  state : SyncState
  existing_ids : List String
  search : Option (List XmlElement)
  fetch : String → FetchResponse
  output_dir : String
  sync_start : String
  sync_start_iso : String
  now30 : String

/-- The result dictionary a completed run returns. -/
structure SyncResult where
  sync_date : String
  date_filter : String
  reports_found : Nat
  reports_synced : Nat
  reports_skipped : Nat
  reports_failed : Nat
  synced : List (Node × String)
  errs : List (Node × String)

/-- How a `sync` call ends: the early `{"error": "No response",
"reports_synced": 0}` return on a falsy search response (no fetch, no state
write); an uncaught exception (`AttributeError` on a non-mapping summary,
or `TypeError` from `set()` on an unhashable id), which also never writes
state; or a completed run with its result, the state written by
`_save_state`, and the trace of fetched ids. -/
inductive SyncOutcome where
  | noResponse
  | raised
  | completed (result : SyncResult) (newState : SyncState) (fetched : List String)

/-- Strings of a list of ids; `none` when some id is not a string, in which
case Python's `set()` raises `TypeError` (dicts and lists are unhashable). -/
def allStrs : List Node → Option (List String)
  | [] => some []
  | Node.str s :: rest => (allStrs rest).map (s :: ·)
  | _ => none

/-- `list(set(xs))` over report ids: `none` models the `TypeError` on an
unhashable entry; a Python set's iteration order is unspecified, so the
model keeps the last occurrence of each id (all claims about this value
concern only the underlying set). -/
def pySetList (xs : List Node) : Option (List String) :=
  (allStrs xs).map List.dedup

/-- The loop parameters `sync` assembles before the fetch loop: the
existing-ids set is the filename scan when `skip_existing` is on, and the
empty set otherwise (line 165). -/
def loopParamsOf (inp : SyncInputs) (env : SyncEnv) : LoopParams :=
  ⟨inp.skip_existing, if inp.skip_existing then env.existing_ids else [],
   env.fetch, env.output_dir⟩

/-- The Finalize stage of `sync` (lines 206-226): write
`last_sync := sync_start` and `synced_reports := list(set(prior + new ids))`
(a `TypeError` from `set()` aborts the run), then build the result
dictionary. `nFound` is `len(summaries)`. -/
def syncFinalize (inp : SyncInputs) (env : SyncEnv) (nFound : Nat) (acc : LoopAcc) :
    SyncOutcome :=
  match pySetList (env.state.synced_reports.map Node.str ++ acc.synced.map Prod.fst) with
  | none => SyncOutcome.raised
  | some newReports =>
    SyncOutcome.completed
      { sync_date := env.sync_start_iso
        date_filter :=
          resolveBoundary inp.full_refresh inp.since env.state.last_sync env.now30
        reports_found := nFound
        reports_synced := acc.synced.length
        reports_skipped := acc.skipped.length
        reports_failed := acc.errors.length
        synced := acc.synced
        errs := acc.errors }
      { last_sync := some env.sync_start, synced_reports := newReports }
      acc.fetched

/-- The stages of `sync` after a truthy search response: parse the summary
elements, run the fetch loop (an `AttributeError` aborts the run), then
finalize. -/
def syncAfterSearch (inp : SyncInputs) (env : SyncEnv) (els : List XmlElement) :
    SyncOutcome :=
  match runLoop (loopParamsOf inp env) ⟨[], [], [], []⟩ (els.map xml_to_dict) with
  | Except.error _ => SyncOutcome.raised
  | Except.ok acc => syncFinalize inp env (els.map xml_to_dict).length acc

/-- `LandingReportSync.sync`: resolve the boundary, search (a falsy response
returns `{"error": "No response", "reports_synced": 0}` before any state
write), reconcile against the existing-file ids, run the fetch loop, then
finalize. -/
def sync (inp : SyncInputs) (env : SyncEnv) : SyncOutcome :=
  match env.search with
  | none => SyncOutcome.noResponse
  | some els => syncAfterSearch inp env els

/-- The on-disk state after a run, given the state before it: only a
completed run reaches `_save_state`. -/
def persistedStateAfter (before : SyncState) : SyncOutcome → SyncState
  | SyncOutcome.completed _ st _ => st
  | _ => before

/-- The normalized values, in document order, of the pairs carrying tag `t`. -/
def tagValues (pairs : List (String × Node)) (t : String) : List Node :=
  (pairs.filter fun p => p.1 == t).map Prod.snd

/-- What the coalescing loop associates to a tag, as a function of the values
carrying that tag: nothing, the single value, or the list of two or more
values. -/
def coalesced : List Node → Option Node
  | [] => none
  | [v] => some v
  | v :: w :: rest => some (Node.arr (v :: w :: rest))

/-- When a record is not skipped, the error message recorded for it, if any:
the exception message on a raising fetch, `"Empty response"` on a falsy
fetch, the save error otherwise; `none` exactly on success. -/
def fetchFailureMsg (p : LoopParams) (r : Node) : Option String :=
  match p.fetch (pyStr r) with
  | FetchResponse.raises msg => some msg
  | FetchResponse.empty => some "Empty response"
  | FetchResponse.ok root =>
    match save_report p.output_dir (xml_to_dict root) with
    | Except.ok _ => none
    | Except.error msg => some msg

/-- When a record is not skipped, the saved file path on success; `none`
exactly on a per-record failure. -/
def fetchSuccessPath (p : LoopParams) (r : Node) : Option String :=
  match p.fetch (pyStr r) with
  | FetchResponse.ok root =>
    match save_report p.output_dir (xml_to_dict root) with
    | Except.ok path => some path
    | Except.error _ => none
  | _ => none

/-- What one iteration appends to `synced`. -/
def syncedDelta (p : LoopParams) (r : Node) : List (Node × String) :=
  if isSkipped p r then []
  else
    match fetchSuccessPath p r with
    | some path => [(r, path)]
    | none => []

/-- What one iteration appends to `skipped`. -/
def skippedDelta (p : LoopParams) (r : Node) : List Node :=
  if isSkipped p r then [r] else []

/-- What one iteration appends to `errors`. -/
def errorsDelta (p : LoopParams) (r : Node) : List (Node × String) :=
  if isSkipped p r then []
  else
    match fetchFailureMsg p r with
    | some m => [(r, m)]
    | none => []

/-- What one iteration appends to the fetch trace. -/
def fetchedDelta (p : LoopParams) (r : Node) : List String :=
  if isSkipped p r then [] else [pyStr r]

/-- The loop accumulator a run with summary ids `ids` ends with. -/
def loopOut (inp : SyncInputs) (env : SyncEnv) (ids : List Node) : LoopAcc :=
  ids.foldl (processId (loopParamsOf inp env)) ⟨[], [], [], []⟩

def inpA : SyncInputs := ⟨none, false, true⟩

/-- A run whose search succeeds with zero summaries: it reaches Finalize
without fetching anything. -/
def envA : SyncEnv :=
  ⟨⟨some "W", ["1"]⟩, [], some [], fun _ => FetchResponse.empty, "out", "S", "SI", "N30"⟩

/-- The summary element `<t><landing_report_id>id</landing_report_id></t>`
used to build concrete runs. -/
def idElem (tag id : String) : XmlElement :=
  ⟨tag, [], [⟨"landing_report_id", [], [], some id⟩], none⟩

def inpD : SyncInputs := ⟨none, false, true⟩

/-- A run whose persisted `synced_reports` already holds id `"7"`, while no
report file exists on disk; the search finds the single stub `"7"`. -/
def envD : SyncEnv :=
  ⟨⟨none, ["7"]⟩, [], some [idElem "landing_report_summary" "7"],
   fun _ => FetchResponse.empty, "out", "S", "SI", "N30"⟩

def inpB : SyncInputs := ⟨none, false, true⟩

/-- The spec's reconciliation example: local reports {1,2,3} exist, search
returns stubs {2,3,4,5}. -/
def envB : SyncEnv :=
  ⟨⟨none, []⟩, ["1", "2", "3"],
   some [idElem "landing_report_summary" "2", idElem "landing_report_summary" "3",
         idElem "landing_report_summary" "4", idElem "landing_report_summary" "5"],
   fun _ => FetchResponse.empty, "out", "S", "SI", "N30"⟩

def inpC : SyncInputs := ⟨none, false, true⟩

/-- The spec's failure-isolation example: fetch for id 4 returns empty while
id 5 succeeds. -/
def envC : SyncEnv :=
  ⟨⟨none, []⟩, [],
   some [idElem "landing_report_summary" "4", idElem "landing_report_summary" "5"],
   fun s => if s = "4" then FetchResponse.empty
            else FetchResponse.ok (idElem "landing_report" "5"),
   "out", "S", "SI", "N30"⟩

example : pyStrip "  hi " = "hi" := by rfl

example : xml_to_dict ⟨"a", [], [], some "  hi "⟩ = Node.str "hi" := by
  simp only [xml_to_dict]
  rfl

example : xml_to_dict ⟨"a", [("x", "1")], [], some "hi"⟩ =
    Node.obj [("@x", Node.str "1"), ("#text", Node.str "hi")] := by
  simp only [xml_to_dict]
  rfl

example : xml_to_dict ⟨"a", [], [⟨"b", [], [], some "1"⟩, ⟨"b", [], [], some "2"⟩], none⟩ =
    Node.obj [("b", Node.arr [Node.str "1", Node.str "2"])] := by
  simp only [xml_to_dict, childPairs]
  rfl

theorem dictFind_dictSet_self (d : List (String × Node)) (k : String) (v : Node) :
    dictFind (dictSet d k v) k = some v := by
  induction d with
  | nil => simp [dictSet, dictFind]
  | cons p rest ih =>
    obtain ⟨k2, v2⟩ := p
    by_cases h : k2 = k
    · simp [dictSet, h, dictFind]
    · simp [dictSet, h, dictFind, ih]

theorem dictFind_dictSet_ne (d : List (String × Node)) (k : String) (v : Node)
    (k2 : String) (h : k ≠ k2) : dictFind (dictSet d k v) k2 = dictFind d k2 := by
  induction d with
  | nil => simp [dictSet, dictFind, h]
  | cons p rest ih =>
    obtain ⟨k3, v3⟩ := p
    by_cases h3 : k3 = k
    · simp [dictSet, h3, dictFind, h]
    · simp [dictSet, h3, dictFind, ih]

theorem mem_dictSet (d : List (String × Node)) (k : String) (v : Node)
    (p : String × Node) (h : p ∈ dictSet d k v) : p ∈ d ∨ p = (k, v) := by
  induction d with
  | nil => simp [dictSet] at h; simp [h]
  | cons q rest ih =>
    by_cases hq : q.1 = k
    · rw [show q = (q.1, q.2) from rfl] at h
      simp [dictSet, hq] at h
      rcases h with h | h
      · right; simp [h]
      · left; simp [h]
    · rw [show q = (q.1, q.2) from rfl] at h
      simp [dictSet, hq] at h
      rcases h with h | h
      · left; rw [show q = (q.1, q.2) from rfl]; simp [h]
      · rcases ih h with h2 | h2
        · left; simp [h2]
        · right; exact h2

theorem dictFind_eq_none_of (d : List (String × Node)) (k : String)
    (h : ∀ p ∈ d, p.1 ≠ k) : dictFind d k = none := by
  induction d with
  | nil => rfl
  | cons p rest ih =>
    obtain ⟨k2, v2⟩ := p
    have h2 : k2 ≠ k := h (k2, v2) (by simp)
    simp [dictFind, h2]
    exact ih fun q hq => h q (by simp [hq])

theorem dictSet_ne_nil (d : List (String × Node)) (k : String) (v : Node) :
    dictSet d k v ≠ [] := by
  cases d with
  | nil => simp [dictSet]
  | cons p rest =>
    obtain ⟨k2, v2⟩ := p
    by_cases h : k2 = k <;> simp [dictSet, h]

theorem dictFind_append_of_some (d1 d2 : List (String × Node)) (k : String) (v : Node)
    (h : dictFind d1 k = some v) : dictFind (d1 ++ d2) k = some v := by
  induction d1 with
  | nil => simp [dictFind] at h
  | cons p rest ih =>
    obtain ⟨k2, v2⟩ := p
    by_cases h2 : k2 = k
    · simp [dictFind, h2] at h ⊢; exact h
    · simp [dictFind, h2] at h ⊢; exact ih h

theorem dictFind_append_of_none (d1 d2 : List (String × Node)) (k : String)
    (h : dictFind d1 k = none) : dictFind (d1 ++ d2) k = dictFind d2 k := by
  induction d1 with
  | nil => simp
  | cons p rest ih =>
    obtain ⟨k2, v2⟩ := p
    by_cases h2 : k2 = k
    · simp [dictFind, h2] at h
    · simp [dictFind, h2] at h ⊢; exact ih h

theorem nodup_keys_dictSet (d : List (String × Node)) (k : String) (v : Node)
    (h : (d.map Prod.fst).Nodup) : ((dictSet d k v).map Prod.fst).Nodup := by
  induction d with
  | nil => simp [dictSet]
  | cons p rest ih =>
    obtain ⟨k2, v2⟩ := p
    rw [List.map_cons, List.nodup_cons] at h
    by_cases h2 : k2 = k
    · rw [show dictSet ((k2, v2) :: rest) k v = (k, v) :: rest from by simp [dictSet, h2]]
      rw [List.map_cons, List.nodup_cons]
      exact ⟨h2 ▸ h.1, h.2⟩
    · rw [show dictSet ((k2, v2) :: rest) k v = (k2, v2) :: dictSet rest k v from by
        simp [dictSet, h2]]
      rw [List.map_cons, List.nodup_cons]
      refine ⟨fun hmem => ?_, ih h.2⟩
      rcases List.mem_map.mp hmem with ⟨q, hq, hfst⟩
      rcases mem_dictSet rest k v q hq with hm | hm
      · exact h.1 (List.mem_map.mpr ⟨q, hm, hfst⟩)
      · rw [hm] at hfst; exact h2 hfst.symm

theorem mem_attribFold (a : List (String × String)) :
    ∀ (d : List (String × Node)) (p : String × Node),
      p ∈ a.foldl (fun acc kv => dictSet acc ("@" ++ kv.1) (Node.str kv.2)) d →
      p ∈ d ∨ ∃ k v, p = ("@" ++ k, Node.str v) := by
  induction a with
  | nil => intro d p h; exact Or.inl h
  | cons q rest ih =>
    intro d p h
    rcases ih (dictSet d ("@" ++ q.1) (Node.str q.2)) p h with h2 | h2
    · rcases mem_dictSet _ _ _ _ h2 with h3 | h3
      · exact Or.inl h3
      · exact Or.inr ⟨q.1, q.2, h3⟩
    · exact Or.inr h2

theorem attribResult_key (a : List (String × String)) (p : String × Node)
    (h : p ∈ attribResult a) : ∃ k v, p = ("@" ++ k, Node.str v) := by
  rcases mem_attribFold a [] p h with h2 | h2
  · simp at h2
  · exact h2

theorem at_key_ne_text (k : String) : "@" ++ k ≠ "#text" := by
  intro h
  have h2 : ("@" ++ k).data = "#text".data := congrArg String.data h
  rw [String.data_append] at h2
  have h3 : '@' :: k.data = ['#', 't', 'e', 'x', 't'] := h2
  simp at h3

theorem dictFind_attribResult_text (a : List (String × String)) :
    dictFind (attribResult a) "#text" = none := by
  apply dictFind_eq_none_of
  intro p hp
  rcases attribResult_key a p hp with ⟨k, v, rfl⟩
  exact at_key_ne_text k

theorem attribFold_ne_nil (a : List (String × String)) :
    ∀ d : List (String × Node), d ≠ [] →
      a.foldl (fun acc kv => dictSet acc ("@" ++ kv.1) (Node.str kv.2)) d ≠ [] := by
  induction a with
  | nil => intro d h; exact h
  | cons q rest ih => intro d _; exact ih _ (dictSet_ne_nil d _ _)

theorem attribResult_ne_nil (a : List (String × String)) (h : a ≠ []) :
    attribResult a ≠ [] := by
  cases a with
  | nil => exact absurd rfl h
  | cons q rest =>
    show rest.foldl _ (dictSet [] ("@" ++ q.1) (Node.str q.2)) ≠ []
    exact attribFold_ne_nil rest _ (dictSet_ne_nil [] _ _)

theorem dictFind_dictUpdate_of_some (a b : List (String × Node)) (k : String) (v : Node)
    (hnb : (b.map Prod.fst).Nodup) (h : dictFind b k = some v) :
    dictFind (dictUpdate a b) k = some v := by
  induction b using List.reverseRecOn with
  | nil => simp [dictFind] at h
  | append_singleton bs p ih =>
    have hupd : dictUpdate a (bs ++ [p]) = dictSet (dictUpdate a bs) p.1 p.2 := by
      simp [dictUpdate, List.foldl_append]
    rw [List.map_append, List.nodup_append] at hnb
    by_cases hk : p.1 = k
    · have hnone : dictFind bs k = none := by
        apply dictFind_eq_none_of
        intro q hq hq1
        exact hnb.2.2 (List.mem_map.mpr ⟨q, hq, rfl⟩) (by simp [hq1, hk])
      rw [dictFind_append_of_none bs [p] k hnone] at h
      rw [show p = (p.1, p.2) from rfl] at h
      simp [dictFind, hk] at h
      rw [hupd, hk, ← h]
      exact dictFind_dictSet_self _ _ _
    · cases hb : dictFind bs k with
      | none =>
        rw [dictFind_append_of_none bs [p] k hb] at h
        rw [show p = (p.1, p.2) from rfl] at h
        simp [dictFind, hk] at h
      | some w =>
        rw [dictFind_append_of_some bs [p] k w hb] at h
        rw [hupd, dictFind_dictSet_ne _ _ _ _ hk]
        exact h ▸ ih hnb.1 (hb.trans (congrArg some (by injection h)))

theorem nodup_keys_addChild (cd : List (String × Node)) (p : String × Node)
    (h : (cd.map Prod.fst).Nodup) : ((addChild cd p).map Prod.fst).Nodup := by
  unfold addChild
  split
  · exact nodup_keys_dictSet cd p.1 _ h
  · exact nodup_keys_dictSet cd p.1 _ h
  · exact nodup_keys_dictSet cd p.1 _ h

theorem nodup_keys_foldl_addChild (ps : List (String × Node)) :
    ∀ cd : List (String × Node), (cd.map Prod.fst).Nodup →
      ((ps.foldl addChild cd).map Prod.fst).Nodup := by
  induction ps with
  | nil => intro cd h; exact h
  | cons p rest ih => intro cd h; exact ih _ (nodup_keys_addChild cd p h)

theorem nodup_keys_coalesce (ps : List (String × Node)) :
    ((coalesceChildren ps).map Prod.fst).Nodup :=
  nodup_keys_foldl_addChild ps [] (by simp)

theorem tagValues_mem (ps : List (String × Node)) (t : String) (v : Node)
    (h : v ∈ tagValues ps t) : ∃ p ∈ ps, p.2 = v := by
  rcases List.mem_map.mp h with ⟨p, hp, hv⟩
  exact ⟨p, (List.mem_filter.mp hp).1, hv⟩

theorem addChild_find_ne (cd : List (String × Node)) (p : String × Node) (k : String)
    (h : p.1 ≠ k) : dictFind (addChild cd p) k = dictFind cd k := by
  unfold addChild
  split
  · exact dictFind_dictSet_ne _ _ _ _ h
  · exact dictFind_dictSet_ne _ _ _ _ h
  · exact dictFind_dictSet_ne _ _ _ _ h

theorem coalesce_find (ps : List (String × Node)) (t : String)
    (harr : ∀ p ∈ ps, ∀ xs, p.2 ≠ Node.arr xs) :
    dictFind (coalesceChildren ps) t = coalesced (tagValues ps t) := by
  induction ps using List.reverseRecOn with
  | nil => simp [coalesceChildren, tagValues, coalesced, dictFind]
  | append_singleton l p ih =>
    have harr2 : ∀ q ∈ l, ∀ xs, q.2 ≠ Node.arr xs := fun q hq => harr q (by simp [hq])
    have hparr : ∀ xs, p.2 ≠ Node.arr xs := harr p (by simp)
    have hco : coalesceChildren (l ++ [p]) = addChild (coalesceChildren l) p := by
      simp [coalesceChildren, List.foldl_append]
    by_cases hpt : p.1 = t
    · have hb : (p.1 == t) = true := beq_iff_eq.mpr hpt
      have htv : tagValues (l ++ [p]) t = tagValues l t ++ [p.2] := by
        simp [tagValues, List.filter_append, List.filter, hb]
      rw [hco, htv]
      subst hpt
      rcases hvs : tagValues l p.1 with _ | ⟨v, _ | ⟨w, vs⟩⟩
      · have hfind := ih harr2
        rw [hvs] at hfind
        simp only [coalesced] at hfind
        unfold addChild
        rw [hfind]
        simp [coalesced, dictFind_dictSet_self]
      · have hfind := ih harr2
        rw [hvs] at hfind
        simp only [coalesced] at hfind
        have hvarr : ∀ xs, v ≠ Node.arr xs := by
          rcases tagValues_mem l p.1 v (hvs ▸ List.mem_singleton.mpr rfl) with ⟨q, hq, hqv⟩
          exact hqv ▸ harr2 q hq
        unfold addChild
        rw [hfind]
        cases v with
        | str s => simp [coalesced, dictFind_dictSet_self]
        | obj es => simp [coalesced, dictFind_dictSet_self]
        | arr xs => exact absurd rfl (hvarr xs)
      · have hfind := ih harr2
        rw [hvs] at hfind
        simp only [coalesced] at hfind
        unfold addChild
        rw [hfind]
        simp [coalesced, dictFind_dictSet_self]
    · have hb : (p.1 == t) = false := beq_eq_false_iff_ne.mpr hpt
      have htv : tagValues (l ++ [p]) t = tagValues l t := by
        simp [tagValues, List.filter_append, List.filter, hb]
      rw [hco, htv, addChild_find_ne _ _ _ hpt]
      exact ih harr2

theorem childPairs_eq (l : List XmlElement) :
    childPairs l = l.map fun c => (c.tag, xml_to_dict c) := by
  induction l with
  | nil => rfl
  | cons c cs ih => rw [childPairs, ih, List.map_cons]

theorem xml_to_dict_ne_arr (e : XmlElement) (xs : List Node) :
    xml_to_dict e ≠ Node.arr xs := by
  obtain ⟨tg, a, ch, tx⟩ := e
  cases ch with
  | nil =>
    cases tx with
    | none => simp [xml_to_dict]
    | some t =>
      simp only [xml_to_dict]
      split
      · simp
      · split <;> simp
  | cons c cs => simp [xml_to_dict]

theorem xml_to_dict_children (tg : String) (a : List (String × String))
    (c : XmlElement) (cs : List XmlElement) (tx : Option String) :
    xml_to_dict ⟨tg, a, c :: cs, tx⟩ =
      Node.obj (dictUpdate (attribResult a)
        (coalesceChildren ((c :: cs).map fun ch => (ch.tag, xml_to_dict ch)))) := by
  rw [show xml_to_dict ⟨tg, a, c :: cs, tx⟩ =
      Node.obj (dictUpdate (attribResult a) (coalesceChildren (childPairs (c :: cs))))
    from by simp [xml_to_dict]]
  rw [childPairs_eq]

/-- C1 counterexample: the element `<a>hello<b/></a>` — one child element and
non-whitespace text `"hello"` — normalizes to a mapping that does NOT
contain the reserved `"#text"` key: because of the source's `elif`
(line 43), an element that has children never has its own text examined,
so the text is dropped, contradicting the claim that such text is always
preserved under `"#text"`. -/
theorem C1_counterexample :
    xml_to_dict (XmlElement.mk "a" [] [XmlElement.mk "b" [] [] none] (some "hello")) =
      Node.obj [("b", Node.obj [])] ∧
    (XmlElement.mk "a" [] [XmlElement.mk "b" [] [] none] (some "hello")).children ≠ [] ∧
    pyStrip "hello" ≠ "" ∧
    nodeGet (xml_to_dict
        (XmlElement.mk "a" [] [XmlElement.mk "b" [] [] none] (some "hello"))) "#text" =
      none := by
  refine ⟨?_, by simp, by decide, ?_⟩
  · simp only [xml_to_dict, childPairs]
    rfl
  · rw [show xml_to_dict (XmlElement.mk "a" [] [XmlElement.mk "b" [] [] none] (some "hello")) =
        Node.obj [("b", Node.obj [])] from by simp only [xml_to_dict, childPairs]; rfl]
    rfl

/-- C1 (amended): for an element with at least one attribute, NO child
elements, and non-empty stripped text, `xml_to_dict` returns a mapping
holding the stripped text under the reserved `"#text"` key alongside the
attribute entries (never a bare scalar, and no attribute entry disturbed);
an element that has child elements drops its own text (see the
counterexample). -/
theorem C1_text_with_attributes (e : XmlElement) (t : String)
    (hattr : e.attrib ≠ []) (hch : e.children = []) (htext : e.text = some t)
    (hws : pyStrip t ≠ "") :
    nodeGet (xml_to_dict e) "#text" = some (Node.str (pyStrip t)) ∧
    (∀ s, xml_to_dict e ≠ Node.str s) ∧
    (∀ k, k ≠ "#text" → nodeGet (xml_to_dict e) k = dictFind (attribResult e.attrib) k) := by
  obtain ⟨tg, a, ch, tx⟩ := e
  subst hch
  simp only at htext hattr hws ⊢
  subst htext
  have hne : attribResult a ≠ [] := attribResult_ne_nil a hattr
  have heq : xml_to_dict ⟨tg, a, [], some t⟩ =
      Node.obj (dictSet (attribResult a) "#text" (Node.str (pyStrip t))) := by
    simp only [xml_to_dict]
    rw [if_neg hws, if_neg (by simpa [List.isEmpty_iff] using hne)]
  rw [heq]
  refine ⟨?_, by simp, ?_⟩
  · simp only [nodeGet]
    exact dictFind_dictSet_self _ _ _
  · intro k hk
    simp only [nodeGet]
    exact dictFind_dictSet_ne _ _ _ _ (fun h => hk h.symm)

theorem C1_witness :
    nodeGet (xml_to_dict ⟨"a", [("x", "1")], [], some " hi "⟩) "#text" =
      some (Node.str "hi") ∧
    (∀ s, xml_to_dict ⟨"a", [("x", "1")], [], some " hi "⟩ ≠ Node.str s) ∧
    (∀ k, k ≠ "#text" →
      nodeGet (xml_to_dict ⟨"a", [("x", "1")], [], some " hi "⟩) k =
        dictFind (attribResult [("x", "1")]) k) := by
  have h := C1_text_with_attributes ⟨"a", [("x", "1")], [], some " hi "⟩ " hi "
    (by simp) rfl rfl (by decide)
  rw [show pyStrip " hi " = "hi" from rfl] at h
  exact h

/-- C7: the collapsing rule of `xml_to_dict`. (a) A leaf with no attributes,
no children, and non-whitespace text collapses to the bare stripped string;
(b) an element with no children whose text is absent or whitespace-only
returns exactly the attribute-prefixed mapping, with no `"#text"` key; (c)
whitespace-only text behaves exactly like absent text. -/
theorem C7_collapsing_rule (e : XmlElement) :
    (∀ t, e.attrib = [] → e.children = [] → e.text = some t → pyStrip t ≠ "" →
      xml_to_dict e = Node.str (pyStrip t)) ∧
    (e.children = [] → (e.text = none ∨ ∃ t, e.text = some t ∧ pyStrip t = "") →
      xml_to_dict e = Node.obj (attribResult e.attrib) ∧
      nodeGet (xml_to_dict e) "#text" = none) ∧
    (∀ t, e.text = some t → pyStrip t = "" →
      xml_to_dict e = xml_to_dict ⟨e.tag, e.attrib, e.children, none⟩) := by
  obtain ⟨tg, a, ch, tx⟩ := e
  refine ⟨?_, ?_, ?_⟩
  · intro t ha hch htx hws
    simp only at ha hch htx
    subst ha; subst hch; subst htx
    simp only [xml_to_dict]
    rw [if_neg hws, if_pos (by simp [attribResult])]
  · intro hch hws
    simp only at hch
    subst hch
    have hobj : xml_to_dict ⟨tg, a, [], tx⟩ = Node.obj (attribResult a) := by
      rcases hws with h | ⟨t, ht, hstrip⟩
      · simp only at h; subst h; simp [xml_to_dict]
      · simp only at ht; subst ht
        simp only [xml_to_dict]
        rw [if_pos hstrip]
    refine ⟨hobj, ?_⟩
    rw [hobj]
    simp only [nodeGet]
    exact dictFind_attribResult_text a
  · intro t htx hstrip
    simp only at htx
    subst htx
    cases ch with
    | nil =>
      simp only [xml_to_dict]
      rw [if_pos hstrip]
    | cons c cs => simp only [xml_to_dict]

theorem C7_witness :
    xml_to_dict ⟨"a", [], [], some " X "⟩ = Node.str "X" ∧
    (xml_to_dict ⟨"b", [("k", "v")], [], some "  "⟩ =
        Node.obj (attribResult [("k", "v")]) ∧
      nodeGet (xml_to_dict ⟨"b", [("k", "v")], [], some "  "⟩) "#text" = none) ∧
    xml_to_dict ⟨"c", [("k", "v")], [], some " "⟩ =
      xml_to_dict ⟨"c", [("k", "v")], [], none⟩ := by
  refine ⟨?_, ?_, ?_⟩
  · have h := (C7_collapsing_rule ⟨"a", [], [], some " X "⟩).1 " X " rfl rfl rfl (by decide)
    rw [show pyStrip " X " = "X" from rfl] at h
    exact h
  · exact (C7_collapsing_rule ⟨"b", [("k", "v")], [], some "  "⟩).2.1 rfl
      (Or.inr ⟨"  ", rfl, by decide⟩)
  · exact (C7_collapsing_rule ⟨"c", [("k", "v")], [], some " "⟩).2.2 " " rfl (by decide)

/-- C8: list coalescing. For an element with children, a tag carried by two
or more children maps to the ordered list of their normalized values in
document order, and a tag carried by exactly one child maps to that child's
single normalized value, which is never itself a list. -/
theorem C8_list_coalescing (e : XmlElement) (t : String) (hne : e.children ≠ []) :
    (2 ≤ (tagValues (e.children.map fun c => (c.tag, xml_to_dict c)) t).length →
      nodeGet (xml_to_dict e) t =
        some (Node.arr (tagValues (e.children.map fun c => (c.tag, xml_to_dict c)) t))) ∧
    (∀ v, tagValues (e.children.map fun c => (c.tag, xml_to_dict c)) t = [v] →
      nodeGet (xml_to_dict e) t = some v ∧ ∀ xs, v ≠ Node.arr xs) := by
  obtain ⟨tg, a, ch, tx⟩ := e
  cases ch with
  | nil => exact absurd rfl hne
  | cons c cs =>
    simp only
    rw [xml_to_dict_children]
    simp only [nodeGet]
    have harr : ∀ p ∈ (c :: cs).map fun ch => (ch.tag, xml_to_dict ch),
        ∀ xs, p.2 ≠ Node.arr xs := by
      intro p hp xs
      rcases List.mem_map.mp hp with ⟨ch, _, rfl⟩
      exact xml_to_dict_ne_arr ch xs
    have hfind := coalesce_find _ t harr
    have hnodup := nodup_keys_coalesce ((c :: cs).map fun ch => (ch.tag, xml_to_dict ch))
    constructor
    · intro hlen
      rcases hvs : tagValues ((c :: cs).map fun ch => (ch.tag, xml_to_dict ch)) t
          with _ | ⟨v, _ | ⟨w, vs⟩⟩
      · rw [hvs] at hlen; simp at hlen
      · rw [hvs] at hlen; simp at hlen
      · rw [hvs] at hfind
        simp only [coalesced] at hfind
        rw [hvs]
        exact dictFind_dictUpdate_of_some _ _ t _ hnodup hfind
    · intro v hvs
      rw [hvs] at hfind
      simp only [coalesced] at hfind
      refine ⟨dictFind_dictUpdate_of_some _ _ t _ hnodup hfind, ?_⟩
      intro xs
      rcases tagValues_mem _ t v (hvs ▸ List.mem_singleton.mpr rfl) with ⟨q, hq, hqv⟩
      exact hqv ▸ harr q hq xs

theorem C8_witness :
    nodeGet (xml_to_dict ⟨"p", [],
        [⟨"item", [], [], some "1"⟩, ⟨"item", [], [], some "2"⟩,
         ⟨"item", [], [], some "3"⟩], none⟩) "item" =
      some (Node.arr [Node.str "1", Node.str "2", Node.str "3"]) ∧
    (nodeGet (xml_to_dict ⟨"q", [], [⟨"item", [], [], some "9"⟩], none⟩) "item" =
        some (Node.str "9") ∧
      ∀ xs, Node.str "9" ≠ Node.arr xs) := by
  have htv3 : tagValues
      (([⟨"item", [], [], some "1"⟩, ⟨"item", [], [], some "2"⟩,
         ⟨"item", [], [], some "3"⟩] : List XmlElement).map
        fun c => (c.tag, xml_to_dict c)) "item" =
      [Node.str "1", Node.str "2", Node.str "3"] := by
    simp only [List.map, xml_to_dict]
    rfl
  have htv1 : tagValues
      (([⟨"item", [], [], some "9"⟩] : List XmlElement).map
        fun c => (c.tag, xml_to_dict c)) "item" = [Node.str "9"] := by
    simp only [List.map, xml_to_dict]
    rfl
  constructor
  · have h := (C8_list_coalescing ⟨"p", [],
        [⟨"item", [], [], some "1"⟩, ⟨"item", [], [], some "2"⟩,
         ⟨"item", [], [], some "3"⟩], none⟩ "item" (by simp)).1
    rw [htv3] at h
    exact h (by simp)
  · exact (C8_list_coalescing ⟨"q", [], [⟨"item", [], [], some "9"⟩], none⟩ "item"
      (by simp)).2 (Node.str "9") htv1

theorem processId_eq (p : LoopParams) (acc : LoopAcc) (r : Node) :
    processId p acc r =
      ⟨acc.synced ++ syncedDelta p r, acc.skipped ++ skippedDelta p r,
       acc.errors ++ errorsDelta p r, acc.fetched ++ fetchedDelta p r⟩ := by
  unfold processId syncedDelta skippedDelta errorsDelta fetchedDelta
    fetchFailureMsg fetchSuccessPath
  by_cases h : isSkipped p r = true
  · simp [h]
  · rw [if_neg h, if_neg h, if_neg h, if_neg h, if_neg h]
    cases hf : p.fetch (pyStr r) with
    | empty => simp
    | raises msg => simp
    | ok root =>
      cases hs : save_report p.output_dir (xml_to_dict root) with
      | ok path => simp [hs]
      | error msg => simp [hs]

theorem foldl_processId_eq (p : LoopParams) (ids : List Node) :
    ∀ acc : LoopAcc,
      ids.foldl (processId p) acc =
        ⟨acc.synced ++ (ids.map (syncedDelta p)).flatten,
         acc.skipped ++ (ids.map (skippedDelta p)).flatten,
         acc.errors ++ (ids.map (errorsDelta p)).flatten,
         acc.fetched ++ (ids.map (fetchedDelta p)).flatten⟩ := by
  induction ids with
  | nil => intro acc; simp
  | cons r rest ih =>
    intro acc
    rw [List.foldl_cons, processId_eq, ih]
    simp [List.append_assoc]

theorem flatten_skippedDelta (p : LoopParams) (ids : List Node) :
    (ids.map (skippedDelta p)).flatten = ids.filter (isSkipped p) := by
  induction ids with
  | nil => rfl
  | cons r rest ih =>
    by_cases h : isSkipped p r = true <;>
      simp [skippedDelta, h, List.filter_cons, ih]

theorem flatten_fetchedDelta (p : LoopParams) (ids : List Node) :
    (ids.map (fetchedDelta p)).flatten =
      (ids.filter fun r => !(isSkipped p r)).map pyStr := by
  induction ids with
  | nil => rfl
  | cons r rest ih =>
    by_cases h : isSkipped p r = true <;>
      simp [fetchedDelta, h, List.filter_cons, ih]

theorem delta_counts (p : LoopParams) (r : Node) :
    (syncedDelta p r).length + (skippedDelta p r).length + (errorsDelta p r).length = 1 := by
  unfold syncedDelta skippedDelta errorsDelta fetchFailureMsg fetchSuccessPath
  by_cases h : isSkipped p r = true
  · simp [h]
  · rw [if_neg h, if_neg h, if_neg h]
    cases hf : p.fetch (pyStr r) with
    | empty => simp
    | raises msg => simp
    | ok root =>
      cases hs : save_report p.output_dir (xml_to_dict root) with
      | ok path => simp [hs]
      | error msg => simp [hs]

theorem loop_counts (p : LoopParams) (ids : List Node) :
    ((ids.map (syncedDelta p)).flatten).length +
      ((ids.map (skippedDelta p)).flatten).length +
      ((ids.map (errorsDelta p)).flatten).length = ids.length := by
  induction ids with
  | nil => rfl
  | cons r rest ih =>
    simp only [List.map_cons, List.flatten_cons, List.length_append, List.length_cons]
    have := delta_counts p r
    omega

theorem mem_flatten_map {α β : Type} (f : α → List β) (l : List α) (a : α) (b : β)
    (ha : a ∈ l) (hb : b ∈ f a) : b ∈ (l.map f).flatten :=
  List.mem_flatten.mpr ⟨f a, List.mem_map.mpr ⟨a, ha, rfl⟩, hb⟩

theorem synced_flatten_fst (p : LoopParams) (ids : List Node) (x : Node)
    (h : x ∈ ((ids.map (syncedDelta p)).flatten).map Prod.fst) : x ∈ ids := by
  rcases List.mem_map.mp h with ⟨pr, hpr, hfst⟩
  rcases List.mem_flatten.mp hpr with ⟨l, hl, hprl⟩
  rcases List.mem_map.mp hl with ⟨r, hr, rfl⟩
  unfold syncedDelta at hprl
  by_cases hsk : isSkipped p r = true
  · rw [if_pos hsk] at hprl; simp at hprl
  · rw [if_neg hsk] at hprl
    cases hp : fetchSuccessPath p r with
    | none => rw [hp] at hprl; simp at hprl
    | some path =>
      rw [hp] at hprl
      rcases List.mem_singleton.mp hprl with rfl
      rw [← hfst]
      exact hr

theorem runLoop_eq (p : LoopParams) (ss ids : List Node) (h : mapIds ss = some ids) :
    ∀ acc, runLoop p acc ss = Except.ok (ids.foldl (processId p) acc) := by
  induction ss generalizing ids with
  | nil =>
    intro acc
    simp [mapIds] at h
    subst h
    rfl
  | cons s rest ih =>
    intro acc
    rw [mapIds] at h
    cases he : extractReportId s with
    | error u => rw [he] at h; simp at h
    | ok r =>
      rw [he] at h
      cases hm : mapIds rest with
      | none => rw [hm] at h; simp at h
      | some ids2 =>
        rw [hm] at h
        simp at h
        rw [runLoop, he, ← h, List.foldl_cons]
        exact ih ids2 hm _

theorem runLoop_ok_inv (p : LoopParams) (ss : List Node) :
    ∀ acc acc2, runLoop p acc ss = Except.ok acc2 →
      ∃ ids, mapIds ss = some ids ∧ acc2 = ids.foldl (processId p) acc := by
  induction ss with
  | nil =>
    intro acc acc2 h
    rw [runLoop] at h
    exact ⟨[], rfl, by injection h with h2; rw [h2]; rfl⟩
  | cons s rest ih =>
    intro acc acc2 h
    rw [runLoop] at h
    cases he : extractReportId s with
    | error u => rw [he] at h; simp at h
    | ok r =>
      rw [he] at h
      rcases ih _ _ h with ⟨ids2, hm, hacc⟩
      exact ⟨r :: ids2, by rw [mapIds, he, hm]; rfl, by rw [hacc, List.foldl_cons]⟩

theorem mapIds_length (ss : List Node) :
    ∀ ids, mapIds ss = some ids → ids.length = ss.length := by
  induction ss with
  | nil => intro ids h; simp [mapIds] at h; subst h; rfl
  | cons s rest ih =>
    intro ids h
    rw [mapIds] at h
    cases he : extractReportId s with
    | error u => rw [he] at h; simp at h
    | ok r =>
      rw [he] at h
      cases hm : mapIds rest with
      | none => rw [hm] at h; simp at h
      | some ids2 =>
        rw [hm] at h
        simp at h
        rw [← h]
        simp [ih ids2 hm]

theorem allStrs_spec (l : List Node) :
    ∀ ss, allStrs l = some ss → ∀ x, x ∈ ss ↔ Node.str x ∈ l := by
  induction l with
  | nil =>
    intro ss h x
    simp [allStrs] at h
    subst h
    simp
  | cons n rest ih =>
    intro ss h x
    cases n with
    | str s =>
      rw [allStrs] at h
      cases hm : allStrs rest with
      | none => rw [hm] at h; simp at h
      | some ss2 =>
        rw [hm] at h
        simp at h
        rw [← h]
        simp only [List.mem_cons]
        constructor
        · rintro (rfl | hx)
          · exact Or.inl rfl
          · exact Or.inr ((ih ss2 hm x).mp hx)
        · rintro (hs | hx)
          · exact Or.inl (by injection hs)
          · exact Or.inr ((ih ss2 hm x).mpr hx)
    | obj es => simp [allStrs] at h
    | arr xs => simp [allStrs] at h

theorem allStrs_of_forall (l : List Node) (h : ∀ n ∈ l, ∃ s, n = Node.str s) :
    ∃ ss, allStrs l = some ss := by
  induction l with
  | nil => exact ⟨[], rfl⟩
  | cons n rest ih =>
    rcases h n (by simp) with ⟨s, rfl⟩
    rcases ih (fun m hm => h m (by simp [hm])) with ⟨ss, hss⟩
    exact ⟨s :: ss, by rw [allStrs, hss]; rfl⟩

theorem allStrs_map_str_append (old : List String) (rest : List Node) :
    allStrs (old.map Node.str ++ rest) =
      (allStrs rest).map fun ss => old ++ ss := by
  induction old with
  | nil =>
    simp only [List.map_nil, List.nil_append]
    cases h : allStrs rest <;> simp [h]
  | cons s srest ih =>
    rw [List.map_cons, List.cons_append,
      show allStrs (Node.str s :: (List.map Node.str srest ++ rest)) =
        (allStrs (List.map Node.str srest ++ rest)).map (s :: ·) from rfl, ih]
    cases h : allStrs rest <;> simp [h]

theorem loopOut_eq (inp : SyncInputs) (env : SyncEnv) (ids : List Node) :
    loopOut inp env ids =
      ⟨(ids.map (syncedDelta (loopParamsOf inp env))).flatten,
       (ids.map (skippedDelta (loopParamsOf inp env))).flatten,
       (ids.map (errorsDelta (loopParamsOf inp env))).flatten,
       (ids.map (fetchedDelta (loopParamsOf inp env))).flatten⟩ := by
  rw [loopOut, foldl_processId_eq]
  rfl

theorem sync_none (inp : SyncInputs) (env : SyncEnv) (h : env.search = none) :
    sync inp env = SyncOutcome.noResponse := by
  unfold sync
  rw [h]

theorem sync_eq_some (inp : SyncInputs) (env : SyncEnv) (els : List XmlElement)
    (hs : env.search = some els) : sync inp env = syncAfterSearch inp env els := by
  unfold sync
  rw [hs]

theorem syncAfterSearch_eq (inp : SyncInputs) (env : SyncEnv) (els : List XmlElement)
    (ids : List Node) (hids : mapIds (els.map xml_to_dict) = some ids) :
    syncAfterSearch inp env els =
      syncFinalize inp env (els.map xml_to_dict).length (loopOut inp env ids) := by
  unfold syncAfterSearch
  rw [runLoop_eq _ _ _ hids]
  exact rfl

theorem syncFinalize_some (inp : SyncInputs) (env : SyncEnv) (nFound : Nat)
    (acc : LoopAcc) (srs : List String)
    (hstrs : allStrs (env.state.synced_reports.map Node.str ++
      acc.synced.map Prod.fst) = some srs) :
    syncFinalize inp env nFound acc = SyncOutcome.completed
      ⟨env.sync_start_iso,
       resolveBoundary inp.full_refresh inp.since env.state.last_sync env.now30,
       nFound, acc.synced.length, acc.skipped.length, acc.errors.length,
       acc.synced, acc.errors⟩
      ⟨some env.sync_start, srs.dedup⟩
      acc.fetched := by
  unfold syncFinalize
  rw [show pySetList (env.state.synced_reports.map Node.str ++
      acc.synced.map Prod.fst) = some srs.dedup from by rw [pySetList, hstrs]; rfl]

theorem syncFinalize_inv (inp : SyncInputs) (env : SyncEnv) (nFound : Nat)
    (acc : LoopAcc) (res : SyncResult) (st : SyncState) (f : List String)
    (h : syncFinalize inp env nFound acc = SyncOutcome.completed res st f) :
    ∃ srs, allStrs (env.state.synced_reports.map Node.str ++
        acc.synced.map Prod.fst) = some srs ∧
      res = ⟨env.sync_start_iso,
        resolveBoundary inp.full_refresh inp.since env.state.last_sync env.now30,
        nFound, acc.synced.length, acc.skipped.length, acc.errors.length,
        acc.synced, acc.errors⟩ ∧
      st = ⟨some env.sync_start, srs.dedup⟩ ∧
      f = acc.fetched := by
  unfold syncFinalize at h
  cases hps : pySetList (env.state.synced_reports.map Node.str ++
      acc.synced.map Prod.fst) with
  | none => rw [hps] at h; simp at h
  | some newReports =>
    rw [hps] at h
    rw [pySetList] at hps
    cases hstrs : allStrs (env.state.synced_reports.map Node.str ++
        acc.synced.map Prod.fst) with
    | none => rw [hstrs] at hps; simp at hps
    | some srs =>
      rw [hstrs] at hps
      simp at hps
      simp at h
      exact ⟨srs, rfl, h.1.symm, by rw [← h.2.1, ← hps], h.2.2.symm⟩

theorem sync_completed_inv (inp : SyncInputs) (env : SyncEnv) (res : SyncResult)
    (st : SyncState) (f : List String)
    (h : sync inp env = SyncOutcome.completed res st f) :
    ∃ els ids srs, env.search = some els ∧
      mapIds (els.map xml_to_dict) = some ids ∧
      allStrs (env.state.synced_reports.map Node.str ++
        (loopOut inp env ids).synced.map Prod.fst) = some srs ∧
      res = ⟨env.sync_start_iso,
        resolveBoundary inp.full_refresh inp.since env.state.last_sync env.now30,
        els.length,
        (loopOut inp env ids).synced.length,
        (loopOut inp env ids).skipped.length,
        (loopOut inp env ids).errors.length,
        (loopOut inp env ids).synced,
        (loopOut inp env ids).errors⟩ ∧
      st = ⟨some env.sync_start, srs.dedup⟩ ∧
      f = (loopOut inp env ids).fetched := by
  unfold sync at h
  cases hs : env.search with
  | none => rw [hs] at h; simp at h
  | some els =>
    rw [hs] at h
    simp only at h
    unfold syncAfterSearch at h
    cases hrl : runLoop (loopParamsOf inp env) ⟨[], [], [], []⟩ (els.map xml_to_dict) with
    | error u => rw [hrl] at h; simp at h
    | ok acc =>
      rw [hrl] at h
      simp only at h
      rcases runLoop_ok_inv _ _ _ _ hrl with ⟨ids, hm, hacc⟩
      have hacc2 : acc = loopOut inp env ids := hacc
      subst hacc2
      rcases syncFinalize_inv _ _ _ _ _ _ _ h with ⟨srs, hstrs, hres, hst, hf⟩
      refine ⟨els, ids, srs, rfl, hm, hstrs, ?_, hst, hf⟩
      rw [hres, SyncResult.mk.injEq]
      exact ⟨rfl, rfl, by simp, rfl, rfl, rfl, rfl, rfl⟩

/-- C2: watermark priority in `sync`'s boundary resolution. Full refresh
forces the unbounded boundary `""` whatever the other inputs; otherwise a
caller-supplied (non-empty) since date is used, extended to midnight;
otherwise a persisted (non-empty) `last_sync` is used; otherwise the
boundary defaults to the pre-formatted now-minus-30-days timestamp. -/
theorem C2_watermark_priority (fr : Bool) (since last_sync : Option String) (n30 : String) :
    (fr = true → resolveBoundary fr since last_sync n30 = "") ∧
    (∀ s, fr = false → since = some s → s ≠ "" →
      resolveBoundary fr since last_sync n30 = s ++ "T00:00:00") ∧
    (∀ ls, fr = false → strTruthy since = false → last_sync = some ls → ls ≠ "" →
      resolveBoundary fr since last_sync n30 = ls) ∧
    (fr = false → strTruthy since = false → strTruthy last_sync = false →
      resolveBoundary fr since last_sync n30 = n30) := by
  refine ⟨?_, ?_, ?_, ?_⟩
  · intro h
    subst h
    rfl
  · intro s hfr hsince hne
    subst hfr; subst hsince
    rw [resolveBoundary, if_neg (by simp), if_pos (by simp [strTruthy, hne])]
    rfl
  · intro ls hfr hsince hlast hne
    subst hfr; subst hlast
    rw [resolveBoundary, if_neg (by simp), if_neg (by simp [hsince]),
      if_pos (by simp [strTruthy, hne])]
    rfl
  · intro hfr hsince hlast
    subst hfr
    rw [resolveBoundary, if_neg (by simp), if_neg (by simp [hsince]),
      if_neg (by simp [hlast])]

theorem C2_witness :
    resolveBoundary true (some "2024-01-01") (some "2023-06-01T00:00:00") "N30" = "" ∧
    resolveBoundary false (some "2024-01-01") (some "2023-06-01T00:00:00") "N30" =
      "2024-01-01T00:00:00" ∧
    resolveBoundary false none (some "2023-06-01T00:00:00") "N30" =
      "2023-06-01T00:00:00" ∧
    resolveBoundary false none none "N30" = "N30" :=
  ⟨(C2_watermark_priority true (some "2024-01-01") (some "2023-06-01T00:00:00") "N30").1 rfl,
   (C2_watermark_priority false (some "2024-01-01")
      (some "2023-06-01T00:00:00") "N30").2.1 "2024-01-01" rfl rfl (by decide),
   (C2_watermark_priority false none
      (some "2023-06-01T00:00:00") "N30").2.2.1 "2023-06-01T00:00:00" rfl rfl rfl (by decide),
   (C2_watermark_priority false none none "N30").2.2.2 rfl rfl rfl⟩

/-- C3: a falsy search response is a hard stop: the run returns the
no-response result (zero synced, nothing fetched), the outcome does not
depend on the fetch client at all, and the persisted state is exactly the
pre-run state. -/
theorem C3_empty_search (inp : SyncInputs) (env : SyncEnv) (h : env.search = none) :
    sync inp env = SyncOutcome.noResponse ∧
    persistedStateAfter env.state (sync inp env) = env.state ∧
    (∀ fetch2, sync inp { env with fetch := fetch2 } = sync inp env) := by
  have h1 : sync inp env = SyncOutcome.noResponse := sync_none inp env h
  refine ⟨h1, by rw [h1]; rfl, ?_⟩
  intro fetch2
  rw [h1, sync_none inp { env with fetch := fetch2 } h]

theorem C3_witness :
    sync ⟨none, false, true⟩
        ⟨⟨some "W", ["1"]⟩, [], none, fun _ => FetchResponse.empty, "out", "S", "SI", "N"⟩ =
      SyncOutcome.noResponse ∧
    persistedStateAfter ⟨some "W", ["1"]⟩
        (sync ⟨none, false, true⟩
          ⟨⟨some "W", ["1"]⟩, [], none, fun _ => FetchResponse.empty, "out", "S", "SI", "N"⟩) =
      ⟨some "W", ["1"]⟩ ∧
    (∀ fetch2, sync ⟨none, false, true⟩
        ⟨⟨some "W", ["1"]⟩, [], none, fetch2, "out", "S", "SI", "N"⟩ =
      sync ⟨none, false, true⟩
        ⟨⟨some "W", ["1"]⟩, [], none, fun _ => FetchResponse.empty, "out", "S", "SI", "N"⟩) :=
  C3_empty_search ⟨none, false, true⟩
    ⟨⟨some "W", ["1"]⟩, [], none, fun _ => FetchResponse.empty, "out", "S", "SI", "N"⟩ rfl

/-- C4: after a run that reaches Finalize, the persisted `last_sync` is the
run's start timestamp (the single `datetime.now()` captured before the
search call), and the persisted `synced_reports` set is exactly the union
of its pre-run value with the ids synced this run — in particular a
superset of the pre-run value. -/
theorem C4_watermark_monotonic (inp : SyncInputs) (env : SyncEnv) (res : SyncResult)
    (st : SyncState) (f : List String)
    (h : sync inp env = SyncOutcome.completed res st f) :
    st.last_sync = some env.sync_start ∧
    (∀ s, s ∈ env.state.synced_reports → s ∈ st.synced_reports) ∧
    (∀ s, s ∈ st.synced_reports ↔
      s ∈ env.state.synced_reports ∨ Node.str s ∈ res.synced.map Prod.fst) := by
  rcases sync_completed_inv _ _ _ _ _ h with ⟨els, ids, srs, hs, hm, hstrs, hres, hst, hf⟩
  subst hres
  subst hst
  have hmem := allStrs_spec _ _ hstrs
  have hiff : ∀ s, s ∈ srs.dedup ↔
      (s ∈ env.state.synced_reports ∨
        Node.str s ∈ (loopOut inp env ids).synced.map Prod.fst) := by
    intro s
    rw [List.mem_dedup, hmem s, List.mem_append]
    constructor
    · rintro (h2 | h2)
      · left
        rcases List.mem_map.mp h2 with ⟨x, hx, hinj⟩
        injection hinj with hinj
        exact hinj ▸ hx
      · exact Or.inr h2
    · rintro (h2 | h2)
      · exact Or.inl (List.mem_map.mpr ⟨s, h2, rfl⟩)
      · exact Or.inr h2
  exact ⟨rfl, fun s hs2 => (hiff s).mpr (Or.inl hs2), hiff⟩

theorem C4_witness :
    (⟨some "S", ["1"]⟩ : SyncState).last_sync = some envA.sync_start ∧
    (∀ s, s ∈ envA.state.synced_reports →
      s ∈ (⟨some "S", ["1"]⟩ : SyncState).synced_reports) ∧
    (∀ s, s ∈ (⟨some "S", ["1"]⟩ : SyncState).synced_reports ↔
      s ∈ envA.state.synced_reports ∨
        Node.str s ∈ (SyncResult.mk "SI" "W" 0 0 0 0 [] []).synced.map Prod.fst) :=
  C4_watermark_monotonic inpA envA ⟨"SI", "W", 0, 0, 0, 0, [], []⟩
    ⟨some "S", ["1"]⟩ [] rfl

/-- C10: count partition. Every summary stub of a run that reaches Finalize
lands in exactly one of the synced / skipped / errors buckets, so
`reports_found = reports_synced + reports_skipped + reports_failed`. -/
theorem C10_count_partition (inp : SyncInputs) (env : SyncEnv) (res : SyncResult)
    (st : SyncState) (f : List String)
    (h : sync inp env = SyncOutcome.completed res st f) :
    res.reports_found = res.reports_synced + res.reports_skipped + res.reports_failed := by
  rcases sync_completed_inv _ _ _ _ _ h with ⟨els, ids, srs, hs, hm, hstrs, hres, hst, hf⟩
  subst hres
  show els.length = (loopOut inp env ids).synced.length +
    (loopOut inp env ids).skipped.length + (loopOut inp env ids).errors.length
  have hlen : ids.length = els.length := by
    rw [mapIds_length _ _ hm, List.length_map]
  rw [loopOut_eq, ← hlen]
  exact (loop_counts (loopParamsOf inp env) ids).symm

theorem xml_to_dict_idElem (tag id : String) (hid : pyStrip id = id) (hne : id ≠ "") :
    xml_to_dict (idElem tag id) = Node.obj [("landing_report_id", Node.str id)] := by
  have h1 : xml_to_dict ⟨"landing_report_id", [], [], some id⟩ = Node.str id := by
    simp only [xml_to_dict, hid]
    rw [if_neg hne]
    exact if_pos rfl
  rw [show idElem tag id = ⟨tag, [], [⟨"landing_report_id", [], [], some id⟩], none⟩ from rfl]
  rw [xml_to_dict_children]
  simp only [List.map_cons, List.map_nil, h1]
  rfl

theorem sumD_eq : [idElem "landing_report_summary" "7"].map xml_to_dict =
    [Node.obj [("landing_report_id", Node.str "7")]] := by
  simp only [List.map_cons, List.map_nil]
  rw [xml_to_dict_idElem "landing_report_summary" "7" rfl (by decide)]

theorem syncD_eq : sync inpD envD = SyncOutcome.completed
    ⟨"SI", "N30", 1, 0, 0, 1, [], [(Node.str "7", "Empty response")]⟩
    ⟨some "S", ["7"]⟩ ["7"] := by
  rw [sync_eq_some inpD envD [idElem "landing_report_summary" "7"] rfl]
  unfold syncAfterSearch
  rw [sumD_eq]
  exact rfl

theorem C10_witness :
    (SyncResult.mk "SI" "N30" 1 0 0 1 [] [(Node.str "7", "Empty response")]).reports_found =
      (SyncResult.mk "SI" "N30" 1 0 0 1 [] [(Node.str "7", "Empty response")]).reports_synced +
      (SyncResult.mk "SI" "N30" 1 0 0 1 [] [(Node.str "7", "Empty response")]).reports_skipped +
      (SyncResult.mk "SI" "N30" 1 0 0 1 [] [(Node.str "7", "Empty response")]).reports_failed :=
  C10_count_partition inpD envD _ ⟨some "S", ["7"]⟩ ["7"] syncD_eq

/-- C5: reconciliation. In a completed run with `skip_existing = true`,
exactly the summary ids not among the Document Store's existing filename
ids are passed to fetch (in order), and the stubs whose id is existing are
counted in `reports_skipped`; every stub is accounted for
(`reports_found = len(ids)`). -/
theorem C5_reconciliation (inp : SyncInputs) (env : SyncEnv) (els : List XmlElement)
    (ids : List Node) (res : SyncResult) (st : SyncState) (f : List String)
    (hskip : inp.skip_existing = true)
    (hs : env.search = some els)
    (hids : mapIds (els.map xml_to_dict) = some ids)
    (h : sync inp env = SyncOutcome.completed res st f) :
    f = (ids.filter fun r => !(env.existing_ids.contains (pyStr r))).map pyStr ∧
    res.reports_skipped =
      (ids.filter fun r => env.existing_ids.contains (pyStr r)).length ∧
    res.reports_found = ids.length := by
  rcases sync_completed_inv _ _ _ _ _ h with ⟨els2, ids2, srs, hs2, hm2, hstrs, hres, hst, hf⟩
  rw [hs] at hs2
  injection hs2 with hs2
  subst hs2
  rw [hids] at hm2
  injection hm2 with hm2
  subst hm2
  subst hres
  subst hf
  have hps : ∀ r, isSkipped (loopParamsOf inp env) r =
      env.existing_ids.contains (pyStr r) := by
    intro r
    simp [isSkipped, loopParamsOf, hskip]
  refine ⟨?_, ?_, ?_⟩
  · rw [loopOut_eq]
    show (ids.map (fetchedDelta (loopParamsOf inp env))).flatten = _
    rw [flatten_fetchedDelta]
    congr 1
    apply List.filter_congr
    intro r _
    rw [hps r]
  · rw [loopOut_eq]
    show ((ids.map (skippedDelta (loopParamsOf inp env))).flatten).length = _
    rw [flatten_skippedDelta]
    congr 1
    apply List.filter_congr
    intro r _
    rw [hps r]
  · show els.length = ids.length
    rw [mapIds_length _ _ hids, List.length_map]

theorem sumB_eq :
    [idElem "landing_report_summary" "2", idElem "landing_report_summary" "3",
     idElem "landing_report_summary" "4", idElem "landing_report_summary" "5"].map
        xml_to_dict =
      [Node.obj [("landing_report_id", Node.str "2")],
       Node.obj [("landing_report_id", Node.str "3")],
       Node.obj [("landing_report_id", Node.str "4")],
       Node.obj [("landing_report_id", Node.str "5")]] := by
  simp only [List.map_cons, List.map_nil]
  rw [xml_to_dict_idElem "landing_report_summary" "2" rfl (by decide),
    xml_to_dict_idElem "landing_report_summary" "3" rfl (by decide),
    xml_to_dict_idElem "landing_report_summary" "4" rfl (by decide),
    xml_to_dict_idElem "landing_report_summary" "5" rfl (by decide)]

theorem idsB_eq :
    mapIds ([idElem "landing_report_summary" "2", idElem "landing_report_summary" "3",
      idElem "landing_report_summary" "4", idElem "landing_report_summary" "5"].map
        xml_to_dict) =
      some [Node.str "2", Node.str "3", Node.str "4", Node.str "5"] := by
  rw [sumB_eq]
  rfl

theorem syncB_eq : sync inpB envB = SyncOutcome.completed
    ⟨"SI", "N30", 4, 0, 2, 2, [],
     [(Node.str "4", "Empty response"), (Node.str "5", "Empty response")]⟩
    ⟨some "S", []⟩ ["4", "5"] := by
  rw [sync_eq_some inpB envB _ rfl]
  unfold syncAfterSearch
  rw [sumB_eq]
  exact rfl

theorem C5_witness :
    (["4", "5"] : List String) =
      ([Node.str "2", Node.str "3", Node.str "4", Node.str "5"].filter
        fun r => !(envB.existing_ids.contains (pyStr r))).map pyStr ∧
    (SyncResult.mk "SI" "N30" 4 0 2 2 []
        [(Node.str "4", "Empty response"), (Node.str "5", "Empty response")]).reports_skipped =
      ([Node.str "2", Node.str "3", Node.str "4", Node.str "5"].filter
        fun r => envB.existing_ids.contains (pyStr r)).length ∧
    (SyncResult.mk "SI" "N30" 4 0 2 2 []
        [(Node.str "4", "Empty response"), (Node.str "5", "Empty response")]).reports_found =
      ([Node.str "2", Node.str "3", Node.str "4", Node.str "5"] : List Node).length :=
  C5_reconciliation inpB envB _ [Node.str "2", Node.str "3", Node.str "4", Node.str "5"]
    _ ⟨some "S", []⟩ ["4", "5"] rfl rfl idsB_eq syncB_eq

/-- C6: failure isolation. If every summary parses to a mapping and every id
is a string, the run always reaches Finalize (per-record failures never
abort it), the watermark is advanced to the run's start time, and for every
non-skipped record: a fetch that raises, returns empty, or whose
normalize/save step fails contributes an `(id, message)` entry to the
errors list, while every successful record contributes its `(id, path)`
entry to the synced list — failures do not block other records. -/
theorem C6_failure_isolation (inp : SyncInputs) (env : SyncEnv) (els : List XmlElement)
    (ids : List Node)
    (hs : env.search = some els)
    (hids : mapIds (els.map xml_to_dict) = some ids)
    (hstr : ∀ r ∈ ids, ∃ s, r = Node.str s) :
    ∃ res st f, sync inp env = SyncOutcome.completed res st f ∧
      st.last_sync = some env.sync_start ∧
      (∀ r ∈ ids, isSkipped (loopParamsOf inp env) r = false →
        (∀ m, fetchFailureMsg (loopParamsOf inp env) r = some m → (r, m) ∈ res.errs) ∧
        (∀ path, fetchSuccessPath (loopParamsOf inp env) r = some path →
          (r, path) ∈ res.synced)) := by
  have hsub : ∀ x ∈ (loopOut inp env ids).synced.map Prod.fst, ∃ s, x = Node.str s := by
    intro x hx
    apply hstr
    rw [loopOut_eq] at hx
    exact synced_flatten_fst (loopParamsOf inp env) ids x hx
  have hall : ∀ n ∈ env.state.synced_reports.map Node.str ++
      (loopOut inp env ids).synced.map Prod.fst, ∃ s, n = Node.str s := by
    intro n hn
    rcases List.mem_append.mp hn with h2 | h2
    · rcases List.mem_map.mp h2 with ⟨s, _, rfl⟩
      exact ⟨s, rfl⟩
    · exact hsub n h2
  rcases allStrs_of_forall _ hall with ⟨srs, hsrs⟩
  refine ⟨_, _, _,
    (sync_eq_some _ _ _ hs).trans ((syncAfterSearch_eq _ _ _ _ hids).trans
      (syncFinalize_some _ _ _ _ _ hsrs)), rfl, ?_⟩
  intro r hr hns
  constructor
  · intro m hm
    show (r, m) ∈ (loopOut inp env ids).errors
    rw [loopOut_eq]
    show (r, m) ∈ (ids.map (errorsDelta (loopParamsOf inp env))).flatten
    apply mem_flatten_map _ _ r _ hr
    simp [errorsDelta, hns, hm]
  · intro path hp
    show (r, path) ∈ (loopOut inp env ids).synced
    rw [loopOut_eq]
    show (r, path) ∈ (ids.map (syncedDelta (loopParamsOf inp env))).flatten
    apply mem_flatten_map _ _ r _ hr
    simp [syncedDelta, hns, hp]

theorem idsC_eq :
    mapIds ([idElem "landing_report_summary" "4",
      idElem "landing_report_summary" "5"].map xml_to_dict) =
      some [Node.str "4", Node.str "5"] := by
  simp only [List.map_cons, List.map_nil]
  rw [xml_to_dict_idElem "landing_report_summary" "4" rfl (by decide),
    xml_to_dict_idElem "landing_report_summary" "5" rfl (by decide)]
  rfl

theorem C6_witness :
    ∃ res st f, sync inpC envC = SyncOutcome.completed res st f ∧
      st.last_sync = some envC.sync_start ∧
      (∀ r ∈ [Node.str "4", Node.str "5"], isSkipped (loopParamsOf inpC envC) r = false →
        (∀ m, fetchFailureMsg (loopParamsOf inpC envC) r = some m → (r, m) ∈ res.errs) ∧
        (∀ path, fetchSuccessPath (loopParamsOf inpC envC) r = some path →
          (r, path) ∈ res.synced)) :=
  C6_failure_isolation inpC envC
    [idElem "landing_report_summary" "4", idElem "landing_report_summary" "5"]
    [Node.str "4", Node.str "5"] rfl idsC_eq
    (by
      intro r hr
      rcases List.mem_cons.mp hr with rfl | hr2
      · exact ⟨"4", rfl⟩
      · rcases List.mem_cons.mp hr2 with rfl | hr3
        · exact ⟨"5", rfl⟩
        · simp at hr3)

/-- C9 counterexample: the persisted `synced_reports` is NOT what decides
skipping. In `envD` the persisted set already contains id `"7"` and
`skip_existing` is on, yet the run fetches `"7"` (fetch trace `["7"]`) and
skips nothing (`reports_skipped = 0`): the skip check uses
`_get_existing_report_ids()` — the filename scan — which is empty here. -/
theorem C9_counterexample :
    "7" ∈ envD.state.synced_reports ∧
    inpD.skip_existing = true ∧
    sync inpD envD = SyncOutcome.completed
      ⟨"SI", "N30", 1, 0, 0, 1, [], [(Node.str "7", "Empty response")]⟩
      ⟨some "S", ["7"]⟩ ["7"] ∧
    (SyncResult.mk "SI" "N30" 1 0 0 1 []
      [(Node.str "7", "Empty response")]).reports_skipped = 0 :=
  ⟨by simp [envD], rfl, syncD_eq, rfl⟩

/-- C9 (amended): during a sync run the existence check that decides
skipping uses the identifiers scanned from the Document Store's saved
report filenames (`_get_existing_report_ids`), not the persisted
`synced_reports`: the skipped count is determined by `existing_ids`, and
replacing the persisted `synced_reports` with any other list changes
neither the fetch trace nor the synced/skipped/errors outcome of the run —
`synced_reports` only feeds the union persisted at Finalize. -/
theorem C9_skip_uses_file_scan (inp : SyncInputs) (env : SyncEnv)
    (els : List XmlElement) (ids : List Node) (res : SyncResult) (st : SyncState)
    (f : List String) (srs2 : List String)
    (hs : env.search = some els)
    (hids : mapIds (els.map xml_to_dict) = some ids)
    (h : sync inp env = SyncOutcome.completed res st f) :
    res.reports_skipped =
      (ids.filter fun r =>
        inp.skip_existing && env.existing_ids.contains (pyStr r)).length ∧
    ∃ res2 st2, sync inp { env with state := ⟨env.state.last_sync, srs2⟩ } =
        SyncOutcome.completed res2 st2 f ∧
      res2.reports_skipped = res.reports_skipped ∧
      res2.synced = res.synced ∧
      res2.errs = res.errs ∧
      st2.last_sync = st.last_sync := by
  rcases sync_completed_inv _ _ _ _ _ h with ⟨els2, ids2, srs, hs2, hm2, hstrs, hres, hst, hf⟩
  rw [hs] at hs2
  injection hs2 with hs2
  subst hs2
  rw [hids] at hm2
  injection hm2 with hm2
  subst hm2
  subst hres
  subst hst
  subst hf
  have hps : ∀ r, isSkipped (loopParamsOf inp env) r =
      (inp.skip_existing && env.existing_ids.contains (pyStr r)) := by
    intro r
    cases hsk : inp.skip_existing with
    | false => simp [isSkipped, loopParamsOf, hsk]
    | true => simp [isSkipped, loopParamsOf, hsk]
  constructor
  · rw [loopOut_eq]
    show ((ids.map (skippedDelta (loopParamsOf inp env))).flatten).length = _
    rw [flatten_skippedDelta]
    congr 1
    apply List.filter_congr
    intro r _
    rw [hps r]
  · have hsyn : ∃ ssyn, allStrs ((loopOut inp env ids).synced.map Prod.fst) = some ssyn := by
      rw [allStrs_map_str_append] at hstrs
      cases hsx : allStrs ((loopOut inp env ids).synced.map Prod.fst) with
      | none => rw [hsx] at hstrs; simp at hstrs
      | some ssyn => exact ⟨ssyn, rfl⟩
    rcases hsyn with ⟨ssyn, hsx⟩
    have hstrs2 : allStrs (srs2.map Node.str ++
        (loopOut inp env ids).synced.map Prod.fst) = some (srs2 ++ ssyn) := by
      rw [allStrs_map_str_append, hsx]
      rfl
    exact ⟨_, _,
      (sync_eq_some inp { env with state := ⟨env.state.last_sync, srs2⟩ } els hs).trans
        ((syncAfterSearch_eq inp _ els ids hids).trans
          (syncFinalize_some inp _ _ _ _ hstrs2)),
      rfl, rfl, rfl, rfl⟩

theorem C9_witness :
    (SyncResult.mk "SI" "W" 0 0 0 0 [] []).reports_skipped =
      (([] : List Node).filter fun r =>
        inpA.skip_existing && envA.existing_ids.contains (pyStr r)).length ∧
    ∃ res2 st2, sync inpA { envA with state := ⟨envA.state.last_sync, ["9"]⟩ } =
        SyncOutcome.completed res2 st2 [] ∧
      res2.reports_skipped = (SyncResult.mk "SI" "W" 0 0 0 0 [] []).reports_skipped ∧
      res2.synced = (SyncResult.mk "SI" "W" 0 0 0 0 [] []).synced ∧
      res2.errs = (SyncResult.mk "SI" "W" 0 0 0 0 [] []).errs ∧
      st2.last_sync = (SyncState.mk (some "S") ["1"]).last_sync :=
  C9_skip_uses_file_scan inpA envA [] [] ⟨"SI", "W", 0, 0, 0, 0, [], []⟩
    ⟨some "S", ["1"]⟩ [] ["9"] rfl rfl rfl
